import Mathlib

/-!
Service lifecycle of the beamlight node

A shallow embedding of `internal/node/service.go`: the `Service` interface, the
`Node` structure and its operations `New`, `RegisterService`, `Start`, `Stop`
and `Wait`.

Every operation is a function from the node before the call to a `Ret`: how the
call ended, the node afterwards, and the sequence of effects the calling thread
(and, during a wait, the finishing goroutines) performed, in program order.
-/

namespace node

/-! ## The service interface -/

/-- What a call `s.Start(ctx)` does, as far as the node can observe it: return by
itself, return only once `ctx` has been cancelled, or never return. The carried
value is the returned `error` (`none` is `nil`). -/
inductive StartBehaviour where
  | returns (err : Option String)
  | untilCancelled (err : Option String)
  | neverReturns
  deriving DecidableEq, Repr

/-- An implementation of the `Service` interface, given by what its three
methods yield: `Name()` is a string, `Stop()` returns an `error` (`none` is
`nil`), `Start(ctx)` behaves as described by a `StartBehaviour`. -/
structure Service where
  Name : String
  Start : StartBehaviour
  Stop : Option String
  deriving DecidableEq, Repr

/-! ## The node -/

/-- The `Node` struct. `ctxDone` is the state of `ctx` (true once `cancel` has
been called), `wg` is the counter of the `sync.WaitGroup`, and `tasks` lists the
goroutines launched by `Start` whose `s.Start(n.ctx)` call has not returned yet.
The mutex `mu` is free between two calls; inside a call it is followed through
the `lock` and `unlock` effects. -/
structure Node where
  services : List Service
  ctxDone : Bool
  wg : Nat
  started : Bool
  tasks : List Service
  deriving DecidableEq, Repr

/-- One effect of an operation. -/
inductive Event where
  | lock
  | unlock
  | print (line : String)
  | wgAdd (delta : Nat)
  | go (s : Service)
  | cancel
  | stopCall (s : Service)
  | wgWait
  | startReturned (s : Service)
  | wgDone
  deriving DecidableEq, Repr

/-- How a call ends: it returns normally (`nil` for the operations that return an
`error`), returns an error, aborts with a panic, or never returns. -/
inductive Outcome where
  | ok
  | err (msg : String)
  | panics (msg : String)
  | blocked
  deriving DecidableEq, Repr

/-- The result of running one operation. -/
structure Ret where
  result : Outcome
  node : Node
  trace : List Event
  deriving DecidableEq, Repr

/-- `New`: a node with no service, a live context, and `started == false`. -/
def New : Node :=
  { services := [], ctxDone := false, wg := 0, started := false, tasks := [] }

/-- `RegisterService`: under the mutex, panic if the node has started, else
append the service. The deferred unlock also runs when panicking. -/
def Node.RegisterService (n : Node) (service : Service) : Ret :=
  if n.started then
    { result := .panics ("cannot register service " ++ service.Name ++ " after node has started"),
      node := n,
      trace := [.lock, .unlock] }
  else
    { result := .ok,
      node := { n with services := n.services ++ [service] },
      trace := [.lock, .unlock] }

/-- The body of the loop of `Start`, for one service: print, `wg.Add(1)`, then
launch the goroutine. -/
def startOne (service : Service) (st : Node × List Event) : Node × List Event :=
  ({ st.1 with wg := st.1.wg + 1, tasks := st.1.tasks ++ [service] },
   st.2 ++ [.print ("Starting service: " ++ service.Name), .wgAdd 1, .go service])

/-- The loop `for _, service := range n.services` of `Start`. -/
def startLoop : List Service → Node × List Event → Node × List Event
  | [], st => st
  | service :: rest, st => startLoop rest (startOne service st)

/-- `Start`: under the mutex, fail if already started, else launch one goroutine
per registered service and set `started`. -/
def Node.Start (n : Node) : Ret :=
  if n.started then
    { result := .err "node already started", node := n, trace := [.lock, .unlock] }
  else
    let st := startLoop n.services
      (n, [.lock,
           .print ("Starting beamlight node with " ++ toString n.services.length ++ " services")])
    { result := .ok,
      node := { st.1 with started := true },
      trace := st.2 ++ [.unlock] }

/-- The result of `s.Start(ctx)` if the call returns while the context is in the
given state, `none` if the call stays blocked. -/
def startResult (cancelled : Bool) : StartBehaviour → Option (Option String)
  | .returns e => some e
  | .untilCancelled e => if cancelled then some e else none
  | .neverReturns => none

/-- Whether the goroutine running `s.Start(ctx)` finishes. -/
def finishes (cancelled : Bool) (s : Service) : Bool :=
  (startResult cancelled s.Start).isSome

/-- The end of the goroutine launched by `Start` for `s`: the call returned, an
error is printed, and the deferred `wg.Done()` runs. -/
def goroutineEnd (cancelled : Bool) (s : Service) : List Event :=
  match startResult cancelled s.Start with
  | some (some e) =>
      [.startReturned s, .print ("Error starting service " ++ s.Name ++ ": " ++ e), .wgDone]
  | some none => [.startReturned s, .wgDone]
  | none => []

/-- `n.wg.Wait()`: the caller is suspended while the goroutines run. Those whose
`Start` call returns in the current state of the context finish (in the order
they were launched, one admissible schedule) and each decrements the counter;
the wait returns when the counter is zero, otherwise it never does. The counter
is a natural number: in a reachable state it is the number of running tasks, so
no `Done()` meets a zero counter. -/
def wgWait (n : Node) : Ret :=
  let gone := n.tasks.filter (finishes n.ctxDone)
  let n1 : Node := { n with wg := n.wg - gone.length,
                            tasks := n.tasks.filter (fun s => !finishes n.ctxDone s) }
  { result := if n1.wg = 0 then .ok else .blocked,
    node := n1,
    trace := .wgWait :: (gone.map (goroutineEnd n.ctxDone)).flatten }

/-- The loop `for i := len(n.services) - 1; i >= 0; i--` of `Stop`; the counter is
`i + 1`. An error of `service.Stop()` is printed and the loop goes on. -/
def stopLoop (services : List Service) : Nat → List Event → List Event
  | 0, tr => tr
  | i + 1, tr =>
    match services.get? i with
    | none => tr
    | some service =>
      let tr1 := tr ++ [.print ("Stopping service: " ++ service.Name), .stopCall service]
      match service.Stop with
      | some e =>
          stopLoop services i
            (tr1 ++ [.print ("Error stopping service " ++ service.Name ++ ": " ++ e)])
      | none => stopLoop services i tr1

/-- `Stop`: under the mutex, fail if not started; else cancel the context, call
`Stop()` on the services from the last to the first, wait for the goroutines,
and clear `started`. The mutex is released by the deferred unlock, on return. -/
def Node.Stop (n : Node) : Ret :=
  if !n.started then
    { result := .err "node not started", node := n, trace := [.lock, .unlock] }
  else
    let tr1 := stopLoop n.services n.services.length
      [.lock, .print "Stopping beamlight node...", .cancel]
    let w := wgWait { n with ctxDone := true }
    match w.result with
    | .ok =>
        { result := .ok,
          node := { w.node with started := false },
          trace := tr1 ++ w.trace ++ [.print "All services stopped", .unlock] }
    | _ => { result := .blocked, node := w.node, trace := tr1 ++ w.trace }

/-- `Wait`: block until the wait group is drained; the mutex is not taken. -/
def Node.Wait (n : Node) : Ret :=
  wgWait n

/-- A goroutine launched by `Start` finishes on its own, between two calls: the
task at position `i` leaves `tasks` and its `wg.Done()` decrements the counter.
`none` when there is no such task or its `Start` call has not returned. -/
def goroutineExit (n : Node) (i : Nat) : Option Node :=
  match n.tasks.get? i with
  | none => none
  | some s =>
    if finishes n.ctxDone s then
      some { n with wg := n.wg - 1, tasks := n.tasks.eraseIdx i }
    else none

/-- Registering a list of services one after the other. -/
def registerAll (n : Node) (ss : List Service) : Node :=
  ss.foldl (fun m s => (m.RegisterService s).node) n

/-! ## Reading a trace -/

/-- The services for which a goroutine was launched, in order. -/
def launched : List Event → List Service
  | [] => []
  | .go s :: tr => s :: launched tr
  | _ :: tr => launched tr

/-- The services whose `Stop()` was called, in order. -/
def stopCalls : List Event → List Service
  | [] => []
  | .stopCall s :: tr => s :: stopCalls tr
  | _ :: tr => stopCalls tr

/-- The services whose `Start` call returned, in order. -/
def returnedStarts : List Event → List Service
  | [] => []
  | .startReturned s :: tr => s :: returnedStarts tr
  | _ :: tr => returnedStarts tr

/-- The total added to the wait group. -/
def addCount : List Event → Nat
  | [] => 0
  | .wgAdd d :: tr => d + addCount tr
  | _ :: tr => addCount tr

/-- The counter of the wait group after the effects, starting from `c`. -/
def wgAfter (c : Nat) : List Event → Nat
  | [] => c
  | .wgAdd d :: tr => wgAfter (c + d) tr
  | .wgDone :: tr => wgAfter (c - 1) tr
  | _ :: tr => wgAfter c tr

/-- Whether the mutex is held after the effects, starting from `held`. -/
def lockHeld (held : Bool) : List Event → Bool
  | [] => held
  | .lock :: tr => lockHeld true tr
  | .unlock :: tr => lockHeld false tr
  | _ :: tr => lockHeld held tr

/-- The points where the calling thread calls into a service or suspends on the
goroutines: a call of `Stop()` and the wait on the wait group. -/
def isServiceCall : Event → Bool
  | .stopCall _ => true
  | .wgWait => true
  | _ => false

/-- The points where a start task is launched: the `wg.Add(1)` and the `go`
statement that follows it. -/
def isLaunch : Event → Bool
  | .wgAdd _ => true
  | .go _ => true
  | _ => false

/-- Whether the mutex is held at every effect of the trace selected by `p`. -/
def heldAt (p : Event → Bool) (held : Bool) : List Event → Bool
  | [] => true
  | .lock :: tr => heldAt p true tr
  | .unlock :: tr => heldAt p false tr
  | e :: tr => (!p e || held) && heldAt p held tr

/-- Whether the mutex is free at every effect of the trace selected by `p`. -/
def freeAt (p : Event → Bool) (held : Bool) : List Event → Bool
  | [] => true
  | .lock :: tr => freeAt p true tr
  | .unlock :: tr => freeAt p false tr
  | e :: tr => (!p e || !held) && freeAt p held tr

/-- Whether the context was cancelled before every call of a service's `Stop()`
in the trace; `fired` tells whether it was cancelled before the trace. -/
def cancelBeforeStops (fired : Bool) : List Event → Bool
  | [] => true
  | .cancel :: tr => cancelBeforeStops true tr
  | .stopCall _ :: tr => fired && cancelBeforeStops fired tr
  | _ :: tr => cancelBeforeStops fired tr

/-- Whether every goroutine launch in the trace comes after its own increment of
the wait group: `credit` counts the increments not yet used by a launch. -/
def addBeforeGo (credit : Nat) : List Event → Bool
  | [] => true
  | .wgAdd d :: tr => addBeforeGo (credit + d) tr
  | .go _ :: tr => decide (0 < credit) && addBeforeGo (credit - 1) tr
  | _ :: tr => addBeforeGo credit tr

/-- Whether the wait on the wait group comes after all calls of `Stop()`. -/
def stopsBeforeWait (waited : Bool) : List Event → Bool
  | [] => true
  | .wgWait :: tr => stopsBeforeWait true tr
  | .stopCall _ :: tr => !waited && stopsBeforeWait waited tr
  | _ :: tr => stopsBeforeWait waited tr

/-- The effects of one round of the loop of `Start`. -/
def startEvents (s : Service) : List Event :=
  [.print ("Starting service: " ++ s.Name), .wgAdd 1, .go s]

/-- The effects of one round of the loop of `Stop`. -/
def stopEvents (s : Service) : List Event :=
  match s.Stop with
  | some e =>
      [.print ("Stopping service: " ++ s.Name), .stopCall s,
       .print ("Error stopping service " ++ s.Name ++ ": " ++ e)]
  | none => [.print ("Stopping service: " ++ s.Name), .stopCall s]

/-- A stretch of effects that neither takes nor releases the mutex. -/
def lockFree (tr : List Event) : Prop :=
  ∀ e ∈ tr, e ≠ Event.lock ∧ e ≠ Event.unlock

/-- The same service with another behaviour of `Start`. -/
def withStart (f : Service → StartBehaviour) (s : Service) : Service :=
  { s with Start := f s }

/-- The states a node can be in: from `New`, by the four operations (when they
return or panic) and by goroutines finishing. -/
inductive Reachable : Node → Prop where
  | new : Reachable New
  | register (n : Node) (s : Service) : Reachable n → Reachable (n.RegisterService s).node
  | start (n : Node) : Reachable n → Reachable n.Start.node
  | stop (n : Node) : Reachable n → Reachable n.Stop.node
  | wait (n : Node) : Reachable n → Reachable n.Wait.node
  | exit (n m : Node) (i : Nat) : Reachable n → goroutineExit n i = some m → Reachable m

/-! ## Sample nodes -/

/-- A service that runs until cancelled and stops cleanly. -/
def svcA : Service := { Name := "A", Start := .untilCancelled none, Stop := none }

/-- A service whose `Start` fails at once and whose `Stop` fails. -/
def svcB : Service := { Name := "B", Start := .returns (some "boom"), Stop := some "bad stop" }

/-- A service that runs until cancelled. -/
def svcC : Service := { Name := "C", Start := .untilCancelled none, Stop := none }

/-- A service whose `Start` ignores the cancellation of its context. -/
def svcHang : Service := { Name := "H", Start := .neverReturns, Stop := none }

/-- A fresh node with `A`, `B`, `C` registered in that order. -/
def sampleNode : Node := registerAll New [svcA, svcB, svcC]

/-- The same node after `Start()`. -/
def sampleRunning : Node := sampleNode.Start.node

/-- A node running the single service `A`. -/
def singleRunning : Node := (registerAll New [svcA]).Start.node

/-- A node running a single service that never returns from `Start`. -/
def hangRunning : Node := (registerAll New [svcHang]).Start.node

end node

namespace node

/-! ## Reading the trace of a concatenation -/

lemma launched_append (a b : List Event) : launched (a ++ b) = launched a ++ launched b := by
  induction a with
  | nil => rfl
  | cons e a ih => cases e <;> simp [launched, ih]

lemma stopCalls_append (a b : List Event) :
    stopCalls (a ++ b) = stopCalls a ++ stopCalls b := by
  induction a with
  | nil => rfl
  | cons e a ih => cases e <;> simp [stopCalls, ih]

lemma returnedStarts_append (a b : List Event) :
    returnedStarts (a ++ b) = returnedStarts a ++ returnedStarts b := by
  induction a with
  | nil => rfl
  | cons e a ih => cases e <;> simp [returnedStarts, ih]

lemma addCount_append (a b : List Event) : addCount (a ++ b) = addCount a + addCount b := by
  induction a with
  | nil => simp [addCount]
  | cons e a ih => cases e <;> simp [addCount, ih, Nat.add_assoc]

lemma wgAfter_append (c : Nat) (a b : List Event) :
    wgAfter c (a ++ b) = wgAfter (wgAfter c a) b := by
  induction a generalizing c with
  | nil => rfl
  | cons e a ih => cases e <;> simp [wgAfter, ih]

lemma lockHeld_append (h : Bool) (a b : List Event) :
    lockHeld h (a ++ b) = lockHeld (lockHeld h a) b := by
  induction a generalizing h with
  | nil => rfl
  | cons e a ih => cases e <;> simp [lockHeld, ih]

lemma heldAt_append (p : Event → Bool) (h : Bool) (a b : List Event) :
    heldAt p h (a ++ b) = (heldAt p h a && heldAt p (lockHeld h a) b) := by
  induction a generalizing h with
  | nil => simp [heldAt, lockHeld]
  | cons e a ih => cases e <;> simp [heldAt, lockHeld, ih, Bool.and_assoc]

lemma cancelBeforeStops_true (tr : List Event) : cancelBeforeStops true tr = true := by
  induction tr with
  | nil => rfl
  | cons e tr ih => cases e <;> simp [cancelBeforeStops, ih]

lemma lockHeld_of_lockFree (h : Bool) (tr : List Event) (hf : lockFree tr) :
    lockHeld h tr = h := by
  induction tr with
  | nil => rfl
  | cons e tr ih =>
    have he := hf e (List.mem_cons_self _ _)
    have ht : lockFree tr := fun x hx => hf x (List.mem_cons_of_mem _ hx)
    cases e <;> simp_all [lockHeld]

lemma heldAt_true_of_lockFree (p : Event → Bool) (tr : List Event) (hf : lockFree tr) :
    heldAt p true tr = true := by
  induction tr with
  | nil => rfl
  | cons e tr ih =>
    have he := hf e (List.mem_cons_self _ _)
    have ht : lockFree tr := fun x hx => hf x (List.mem_cons_of_mem _ hx)
    cases e <;> simp_all [heldAt]

/-! ## The loops -/

lemma startLoop_node (ss : List Service) (st : Node × List Event) :
    (startLoop ss st).1 =
      { st.1 with wg := st.1.wg + ss.length, tasks := st.1.tasks ++ ss } := by
  induction ss generalizing st with
  | nil => simp [startLoop]
  | cons s ss ih =>
    simp [startLoop, ih, startOne, Nat.add_assoc, Nat.add_comm 1]

lemma startLoop_trace (ss : List Service) (st : Node × List Event) :
    (startLoop ss st).2 = st.2 ++ (ss.map startEvents).flatten := by
  induction ss generalizing st with
  | nil => simp [startLoop]
  | cons s ss ih => simp [startLoop, ih, startOne, startEvents]

lemma launched_startEvents (ss : List Service) :
    launched (ss.map startEvents).flatten = ss := by
  induction ss with
  | nil => rfl
  | cons s ss ih => simp [startEvents, launched, ih]

lemma addCount_startEvents (ss : List Service) :
    addCount (ss.map startEvents).flatten = ss.length := by
  induction ss with
  | nil => rfl
  | cons s ss ih => simp [startEvents, addCount, ih, Nat.add_comm]

lemma addBeforeGo_startEvents (c : Nat) (ss : List Service) (tr : List Event) :
    addBeforeGo c ((ss.map startEvents).flatten ++ tr) = addBeforeGo c tr := by
  induction ss with
  | nil => rfl
  | cons s ss ih => simp [startEvents, addBeforeGo, ih]

lemma lockFree_startEvents (ss : List Service) : lockFree (ss.map startEvents).flatten := by
  intro e he
  simp only [List.mem_flatten, List.mem_map] at he
  obtain ⟨l, ⟨s, _, rfl⟩, hel⟩ := he
  simp [startEvents] at hel
  rcases hel with rfl | rfl | rfl <;> simp

lemma stopLoop_eq (services : List Service) (k : Nat) (tr : List Event)
    (hk : k ≤ services.length) :
    stopLoop services k tr = tr ++ (((services.take k).reverse).map stopEvents).flatten := by
  induction k generalizing tr with
  | zero => simp [stopLoop]
  | succ i ih =>
    have hi : i < services.length := hk
    obtain ⟨s, hs⟩ : ∃ s, services.get? i = some s := ⟨_, List.get?_eq_get hi⟩
    have hs2 : services[i]? = some s := by simpa using hs
    have htake : services.take (i + 1) = services.take i ++ [s] := by
      rw [List.take_succ, hs2]; rfl
    rw [stopLoop, hs]
    simp only [htake, List.reverse_append, List.reverse_singleton, List.singleton_append,
      List.map_cons, List.flatten_cons]
    cases hstop : s.Stop with
    | none =>
      simp only []
      rw [ih _ (Nat.le_of_lt hi)]
      simp [stopEvents, hstop]
    | some e =>
      simp only []
      rw [ih _ (Nat.le_of_lt hi)]
      simp [stopEvents, hstop]

lemma stopCalls_stopEvents (ss : List Service) :
    stopCalls (ss.map stopEvents).flatten = ss := by
  induction ss with
  | nil => rfl
  | cons s ss ih =>
    simp only [List.map_cons, List.flatten_cons, stopCalls_append, ih]
    cases hs : s.Stop <;> simp [stopEvents, hs, stopCalls]

lemma lockFree_stopEvents (ss : List Service) : lockFree (ss.map stopEvents).flatten := by
  intro e he
  simp only [List.mem_flatten, List.mem_map] at he
  obtain ⟨l, ⟨s, _, rfl⟩, hel⟩ := he
  cases hs : s.Stop <;> simp [stopEvents, hs] at hel
  · rcases hel with rfl | rfl <;> simp
  · rcases hel with rfl | rfl | rfl <;> simp

lemma stopsBeforeWait_stopEvents (ss : List Service) (tr : List Event) :
    stopsBeforeWait false ((ss.map stopEvents).flatten ++ tr) = stopsBeforeWait false tr := by
  induction ss with
  | nil => rfl
  | cons s ss ih =>
    cases hs : s.Stop <;> simp [stopEvents, hs, stopsBeforeWait, ih]

/-! ## The operations, case by case -/

lemma registerAll_eq (n : Node) (ss : List Service) (h : n.started = false) :
    registerAll n ss = { n with services := n.services ++ ss } := by
  induction ss generalizing n with
  | nil => simp [registerAll]
  | cons s ss ih =>
    have h1 : ((n.RegisterService s).node).started = false := by
      simp [Node.RegisterService, h]
    have h2 := ih (n.RegisterService s).node h1
    simp only [registerAll, List.foldl_cons] at h2 ⊢
    rw [h2]
    simp [Node.RegisterService, h]

lemma Start_eq (n : Node) (h : n.started = false) :
    n.Start =
      { result := .ok,
        node := { n with wg := n.wg + n.services.length, tasks := n.tasks ++ n.services,
                         started := true },
        trace := [.lock,
                  .print ("Starting beamlight node with " ++ toString n.services.length
                    ++ " services")]
                  ++ (n.services.map startEvents).flatten ++ [.unlock] } := by
  simp [Node.Start, h, startLoop_node, startLoop_trace]

lemma goroutineEnd_of_finishes (c : Bool) (s : Service) (h : finishes c s = true) :
    goroutineEnd c s = [.startReturned s, .wgDone] ∨
    ∃ e, goroutineEnd c s = [.startReturned s, .print e, .wgDone] := by
  unfold finishes at h
  unfold goroutineEnd
  cases hr : startResult c s.Start with
  | none => simp [hr] at h
  | some r =>
    cases r with
    | none => exact Or.inl rfl
    | some e => exact Or.inr ⟨_, rfl⟩

/-- The effects of the goroutines that finish during a wait. -/
lemma drain_facts (c : Bool) (ts : List Service) (h : ∀ s ∈ ts, finishes c s = true) :
    lockFree (ts.map (goroutineEnd c)).flatten ∧
    stopCalls (ts.map (goroutineEnd c)).flatten = [] ∧
    returnedStarts (ts.map (goroutineEnd c)).flatten = ts ∧
    (∀ tr, stopsBeforeWait true ((ts.map (goroutineEnd c)).flatten ++ tr)
      = stopsBeforeWait true tr) ∧
    (∀ k, wgAfter k (ts.map (goroutineEnd c)).flatten = k - ts.length) := by
  induction ts with
  | nil => simp [lockFree, stopCalls, returnedStarts, wgAfter]
  | cons s ts ih =>
    obtain ⟨i1, i2, i3, i4, i5⟩ := ih (fun x hx => h x (List.mem_cons_of_mem _ hx))
    have hs := goroutineEnd_of_finishes c s (h s (List.mem_cons_self _ _))
    rcases hs with hs | ⟨e, hs⟩
    · refine ⟨?_, ?_, ?_, ?_, ?_⟩
      · intro e he
        simp only [List.map_cons, List.flatten_cons, hs, List.mem_append] at he
        rcases he with he | he
        · simp at he; rcases he with rfl | rfl <;> simp
        · exact i1 e he
      · simp [hs, stopCalls, i2]
      · simp [hs, returnedStarts, i3]
      · intro tr; simp [hs, stopsBeforeWait, i4]
      · intro k; simp [hs, wgAfter, i5, Nat.sub_sub, Nat.add_comm]
    · refine ⟨?_, ?_, ?_, ?_, ?_⟩
      · intro x he
        simp only [List.map_cons, List.flatten_cons, hs, List.mem_append] at he
        rcases he with he | he
        · simp at he; rcases he with rfl | rfl | rfl <;> simp
        · exact i1 x he
      · simp [hs, stopCalls, i2]
      · simp [hs, returnedStarts, i3]
      · intro tr; simp [hs, stopsBeforeWait, i4]
      · intro k; simp [hs, wgAfter, i5, Nat.sub_sub, Nat.add_comm]

lemma filter_length_add (p : Service → Bool) (ts : List Service) :
    (ts.filter p).length + (ts.filter (fun s => !p s)).length = ts.length := by
  induction ts with
  | nil => rfl
  | cons s ts ih =>
    cases hp : p s <;> simp [List.filter_cons, hp] <;> omega

/-- With a counter equal to the number of running goroutines, a wait returns
exactly when every one of them finishes. -/
lemma wgWait_ok_iff (n : Node) (hwf : n.wg = n.tasks.length) :
    (wgWait n).result = .ok ↔ ∀ s ∈ n.tasks, finishes n.ctxDone s = true := by
  have hlen := filter_length_add (finishes n.ctxDone) n.tasks
  have hwg : n.wg - (n.tasks.filter (finishes n.ctxDone)).length
      = (n.tasks.filter (fun s => !finishes n.ctxDone s)).length := by omega
  simp only [wgWait, hwg]
  constructor
  · intro h s hs
    by_contra hf
    have hmem : s ∈ n.tasks.filter (fun s => !finishes n.ctxDone s) := by
      simp [List.mem_filter, hs, hf]
    have hpos := List.length_pos_of_mem hmem
    split at h
    · omega
    · cases h
  · intro h
    have : n.tasks.filter (fun s => !finishes n.ctxDone s) = [] := by
      simp [List.filter_eq_nil_iff]
      exact h
    simp [this]

lemma wgWait_result (n : Node) : (wgWait n).result = .ok ∨ (wgWait n).result = .blocked := by
  simp only [wgWait]
  split
  · exact Or.inl rfl
  · exact Or.inr rfl

lemma wgWait_ok_wg (n : Node) (h : (wgWait n).result = .ok) : (wgWait n).node.wg = 0 := by
  simp only [wgWait] at h ⊢
  split at h
  · assumption
  · cases h

lemma Stop_eq_ok (n : Node) (h : n.started = true)
    (hw : (wgWait { n with ctxDone := true }).result = .ok) :
    n.Stop =
      { result := .ok,
        node := { (wgWait { n with ctxDone := true }).node with started := false },
        trace := [.lock, .print "Stopping beamlight node...", .cancel]
          ++ (n.services.reverse.map stopEvents).flatten
          ++ (wgWait { n with ctxDone := true }).trace
          ++ [.print "All services stopped", .unlock] } := by
  simp only [h] at hw
  simp only [Node.Stop, h, stopLoop_eq n.services n.services.length _ (Nat.le_refl _),
    List.take_length]
  simp [hw]

lemma Stop_eq_blocked (n : Node) (h : n.started = true)
    (hw : (wgWait { n with ctxDone := true }).result = .blocked) :
    n.Stop =
      { result := .blocked,
        node := (wgWait { n with ctxDone := true }).node,
        trace := [.lock, .print "Stopping beamlight node...", .cancel]
          ++ (n.services.reverse.map stopEvents).flatten
          ++ (wgWait { n with ctxDone := true }).trace } := by
  simp only [h] at hw
  simp only [Node.Stop, h, stopLoop_eq n.services n.services.length _ (Nat.le_refl _),
    List.take_length]
  simp [hw]

lemma Stop_eq_of_not_started (n : Node) (h : n.started = false) :
    n.Stop = { result := .err "node not started", node := n, trace := [.lock, .unlock] } := by
  simp [Node.Stop, h]

lemma finishes_true_iff (s : Service) : finishes true s = true ↔ s.Start ≠ .neverReturns := by
  unfold finishes
  cases hs : s.Start <;> simp [startResult]

lemma stopCalls_wgWait (n : Node) : stopCalls (wgWait n).trace = [] := by
  have hd := drain_facts n.ctxDone (n.tasks.filter (finishes n.ctxDone))
    (fun s hs => (List.mem_filter.mp hs).2)
  simp [wgWait, stopCalls, hd.2.1]

lemma stopCalls_Stop (n : Node) (h : n.started = true) :
    stopCalls n.Stop.trace = n.services.reverse := by
  rcases wgWait_result { n with ctxDone := true } with hw | hw
  · rw [Stop_eq_ok n h hw]
    simp only [stopCalls_append, stopCalls_stopEvents, stopCalls_wgWait]
    simp [stopCalls]
  · rw [Stop_eq_blocked n h hw]
    simp only [stopCalls_append, stopCalls_stopEvents, stopCalls_wgWait]
    simp [stopCalls]

lemma Stop_result (n : Node) (h : n.started = true) :
    n.Stop.result = (wgWait { n with ctxDone := true }).result := by
  rcases wgWait_result { n with ctxDone := true } with hw | hw
  · rw [Stop_eq_ok n h hw, hw]
  · rw [Stop_eq_blocked n h hw, hw]

lemma Start_result_ok (n : Node) (h : n.Start.result = .ok) : n.started = false := by
  cases hs : n.started with
  | false => rfl
  | true => simp [Node.Start, hs] at h

lemma launched_Start (n : Node) (h : n.started = false) :
    launched n.Start.trace = n.services := by
  rw [Start_eq n h]
  simp only [launched_append, launched_startEvents]
  simp [launched]

lemma Stop_ok_node (n : Node) (h : n.started = true) (hr : n.Stop.result = .ok) :
    n.Stop.node.services = n.services ∧ n.Stop.node.ctxDone = true ∧
    n.Stop.node.wg = 0 ∧ n.Stop.node.started = false := by
  have hw : (wgWait { n with ctxDone := true }).result = .ok := by
    rw [← Stop_result n h]; exact hr
  have h0 := wgWait_ok_wg _ hw
  rw [Stop_eq_ok n h hw]
  exact ⟨rfl, rfl, h0, rfl⟩

lemma Stop_services (n : Node) : n.Stop.node.services = n.services := by
  cases hs : n.started with
  | false => rw [Stop_eq_of_not_started n hs]
  | true =>
    rcases wgWait_result { n with ctxDone := true } with hw | hw
    · rw [Stop_eq_ok n hs hw]; rfl
    · rw [Stop_eq_blocked n hs hw]; rfl

lemma lockFree_append (a b : List Event) (ha : lockFree a) (hb : lockFree b) :
    lockFree (a ++ b) := by
  intro e he
  rcases List.mem_append.mp he with h | h
  · exact ha e h
  · exact hb e h

lemma lockFree_wgWait (n : Node) : lockFree (wgWait n).trace := by
  have hd := drain_facts n.ctxDone (n.tasks.filter (finishes n.ctxDone))
    (fun s hs => (List.mem_filter.mp hs).2)
  intro e he
  simp only [wgWait, List.mem_cons] at he
  rcases he with rfl | he
  · simp
  · exact hd.1 e he

lemma mem_stopCalls (s : Service) (tr : List Event) :
    s ∈ stopCalls tr ↔ Event.stopCall s ∈ tr := by
  induction tr with
  | nil => simp [stopCalls]
  | cons e tr ih => cases e <;> simp [stopCalls, ih]

lemma returnedStarts_stopEvents (ss : List Service) :
    returnedStarts (ss.map stopEvents).flatten = [] := by
  induction ss with
  | nil => rfl
  | cons s ss ih =>
    simp only [List.map_cons, List.flatten_cons, returnedStarts_append, ih]
    cases hs : s.Stop <;> simp [stopEvents, hs, returnedStarts]

lemma wgAfter_stopEvents (c : Nat) (ss : List Service) :
    wgAfter c (ss.map stopEvents).flatten = c := by
  induction ss with
  | nil => rfl
  | cons s ss ih =>
    cases hs : s.Stop <;> simp [stopEvents, hs, wgAfter, ih]

lemma heldAt_lock_unlock (p : Event → Bool) (mid : List Event) (hf : lockFree mid) :
    heldAt p false (Event.lock :: (mid ++ [Event.unlock])) = true := by
  simp only [heldAt, heldAt_append, heldAt_true_of_lockFree p mid hf,
    lockHeld_of_lockFree true mid hf, Bool.true_and]

lemma heldAt_lock (p : Event → Bool) (mid : List Event) (hf : lockFree mid) :
    heldAt p false (Event.lock :: mid) = true := by
  simp only [heldAt, heldAt_true_of_lockFree p mid hf]

lemma lockFree_print (line : String) : lockFree [Event.print line] := by
  intro e he
  simp at he
  subst he
  simp

lemma heldAt_Stop (p : Event → Bool) (n : Node) (h : n.started = true) :
    heldAt p false n.Stop.trace = true := by
  have hmid : lockFree ([Event.print "Stopping beamlight node...", Event.cancel]
      ++ (n.services.reverse.map stopEvents).flatten
      ++ (wgWait { n with ctxDone := true }).trace) := by
    refine lockFree_append _ _ (lockFree_append _ _ ?_ (lockFree_stopEvents _))
      (lockFree_wgWait _)
    intro e he
    simp at he
    rcases he with rfl | rfl <;> simp
  rcases wgWait_result { n with ctxDone := true } with hw | hw
  · rw [Stop_eq_ok n h hw]
    have hall := lockFree_append _ _ hmid (lockFree_print "All services stopped")
    have e1 : [Event.lock, Event.print "Stopping beamlight node...", Event.cancel]
        ++ (n.services.reverse.map stopEvents).flatten
        ++ (wgWait { n with ctxDone := true }).trace
        ++ [Event.print "All services stopped", Event.unlock]
        = Event.lock :: ((([Event.print "Stopping beamlight node...", Event.cancel]
        ++ (n.services.reverse.map stopEvents).flatten
        ++ (wgWait { n with ctxDone := true }).trace)
        ++ [Event.print "All services stopped"]) ++ [Event.unlock]) := by
      simp
    rw [e1]
    exact heldAt_lock_unlock p _ hall
  · rw [Stop_eq_blocked n h hw]
    exact heldAt_lock p _ hmid

lemma heldAt_Start (p : Event → Bool) (n : Node) : heldAt p false n.Start.trace = true := by
  cases hs : n.started with
  | true => simp [Node.Start, hs, heldAt]
  | false =>
    rw [Start_eq n hs]
    have hmid := lockFree_append _ _ (lockFree_print ("Starting beamlight node with "
        ++ toString n.services.length ++ " services")) (lockFree_startEvents n.services)
    exact heldAt_lock_unlock p _ hmid

/-- The shape of the trace of a `Stop()` that returns. -/
lemma Stop_trace_facts (A D : List Event) (ts : List Service) (k : Nat)
    (hA1 : ∀ tr, stopsBeforeWait false (A ++ tr) = stopsBeforeWait false tr)
    (hA2 : returnedStarts A = [])
    (hA3 : ∀ c, wgAfter c A = c)
    (hD1 : ∀ tr, stopsBeforeWait true (D ++ tr) = stopsBeforeWait true tr)
    (hD2 : returnedStarts D = ts)
    (hD3 : ∀ c, wgAfter c D = c - k) :
    stopsBeforeWait false
      ([Event.lock, Event.print "Stopping beamlight node...", Event.cancel] ++ A
        ++ (Event.wgWait :: D) ++ [Event.print "All services stopped", Event.unlock]) = true ∧
    cancelBeforeStops false
      ([Event.lock, Event.print "Stopping beamlight node...", Event.cancel] ++ A
        ++ (Event.wgWait :: D) ++ [Event.print "All services stopped", Event.unlock]) = true ∧
    returnedStarts
      ([Event.lock, Event.print "Stopping beamlight node...", Event.cancel] ++ A
        ++ (Event.wgWait :: D) ++ [Event.print "All services stopped", Event.unlock]) = ts ∧
    ∀ c, wgAfter c
      ([Event.lock, Event.print "Stopping beamlight node...", Event.cancel] ++ A
        ++ (Event.wgWait :: D) ++ [Event.print "All services stopped", Event.unlock]) = c - k := by
  refine ⟨?_, ?_, ?_, ?_⟩
  · simp only [List.append_assoc, List.cons_append, List.nil_append]
    simp only [stopsBeforeWait, hA1, hD1]
  · simp only [List.append_assoc, List.cons_append, List.nil_append]
    simp only [cancelBeforeStops, cancelBeforeStops_true]
  · simp only [List.append_assoc, List.cons_append, List.nil_append]
    simp only [returnedStarts, returnedStarts_append, hA2, hD2, List.nil_append,
      List.append_nil]
  · intro c
    simp only [List.append_assoc, List.cons_append, List.nil_append]
    simp only [wgAfter, wgAfter_append, hA3, hD3]

/-! ## The mutex is held over the whole body -/

lemma lockFree_Stop_body (n : Node) :
    lockFree ([Event.print "Stopping beamlight node...", Event.cancel]
      ++ (n.services.reverse.map stopEvents).flatten
      ++ (wgWait { n with ctxDone := true }).trace) := by
  refine lockFree_append _ _ (lockFree_append _ _ ?_ (lockFree_stopEvents _))
    (lockFree_wgWait _)
  intro e he
  simp at he
  rcases he with rfl | rfl <;> simp

/-- The effects of `Stop()` on a started node: `lock`, a stretch without `lock`
or `unlock` holding the calls of `Stop()` and the wait, then `unlock` when the
call returns. -/
lemma Stop_body (n : Node) (h : n.started = true) :
    ∃ mid : List Event, lockFree mid ∧ Event.wgWait ∈ mid ∧
      stopCalls mid = n.services.reverse ∧
      (n.Stop.result = .ok → n.Stop.trace = Event.lock :: (mid ++ [Event.unlock])) ∧
      (n.Stop.result = .blocked → n.Stop.trace = Event.lock :: mid) := by
  have hmid := lockFree_Stop_body n
  have hcalls : stopCalls ([Event.print "Stopping beamlight node...", Event.cancel]
      ++ (n.services.reverse.map stopEvents).flatten
      ++ (wgWait { n with ctxDone := true }).trace) = n.services.reverse := by
    simp only [stopCalls_append, stopCalls_stopEvents, stopCalls_wgWait]
    simp [stopCalls]
  have hwait : Event.wgWait ∈ [Event.print "Stopping beamlight node...", Event.cancel]
      ++ (n.services.reverse.map stopEvents).flatten
      ++ (wgWait { n with ctxDone := true }).trace := by
    simp [wgWait]
  rcases wgWait_result { n with ctxDone := true } with hw | hw
  · refine ⟨_ ++ [Event.print "All services stopped"],
      lockFree_append _ _ hmid (lockFree_print "All services stopped"),
      List.mem_append_left _ hwait, ?_, ?_, ?_⟩
    · rw [stopCalls_append, hcalls]; simp [stopCalls]
    · intro _
      rw [Stop_eq_ok n h hw]
      simp
    · intro hb
      rw [Stop_eq_ok n h hw] at hb
      cases hb
  · refine ⟨_, hmid, hwait, hcalls, ?_, ?_⟩
    · intro hb
      rw [Stop_eq_blocked n h hw] at hb
      cases hb
    · intro _
      rw [Stop_eq_blocked n h hw]
      simp

/-- The effects of `Start()`: `lock`, a stretch without `lock` or `unlock`
holding every `wg.Add(1)` and every launch, then `unlock`. -/
lemma Start_body (m : Node) :
    ∃ mid : List Event, lockFree mid ∧
      m.Start.trace = Event.lock :: (mid ++ [Event.unlock]) ∧
      (m.started = false →
        launched mid = m.services ∧ addCount mid = m.services.length ∧
        addBeforeGo 0 mid = true) := by
  cases hs : m.started with
  | true =>
    refine ⟨[], ?_, ?_, ?_⟩
    · intro e he; cases he
    · simp [Node.Start, hs]
    · intro hf; cases hf
  | false =>
    refine ⟨[Event.print ("Starting beamlight node with "
        ++ toString m.services.length ++ " services")]
        ++ (m.services.map startEvents).flatten,
      lockFree_append _ _ (lockFree_print _) (lockFree_startEvents m.services), ?_, ?_⟩
    · rw [Start_eq m hs]; simp
    · intro _
      refine ⟨?_, ?_, ?_⟩
      · simp only [launched_append, launched_startEvents]; simp [launched]
      · simp only [addCount_append, addCount_startEvents]; simp [addCount]
      · have := addBeforeGo_startEvents 0 m.services []
        simp only [List.append_nil] at this
        rw [List.singleton_append]
        simp only [addBeforeGo]
        rw [this]
        rfl

/-! ## The counter counts the running start tasks -/

lemma wgWait_counter (n : Node) (hwf : n.wg = n.tasks.length) :
    (wgWait n).node.wg = (wgWait n).node.tasks.length := by
  have hlen := filter_length_add (finishes n.ctxDone) n.tasks
  simp only [wgWait]
  omega

/-- In every reachable state the counter of the wait group is the number of
start tasks that have not returned. -/
lemma counter_of_reachable (n : Node) (hr : Reachable n) : n.wg = n.tasks.length := by
  induction hr with
  | new => rfl
  | register n s _ ih =>
    cases hs : n.started <;> simp [Node.RegisterService, hs, ih]
  | start n _ ih =>
    cases hs : n.started with
    | true => simp [Node.Start, hs, ih]
    | false => rw [Start_eq n hs]; simp [ih]
  | stop n _ ih =>
    cases hs : n.started with
    | false => rw [Stop_eq_of_not_started n hs]; exact ih
    | true =>
      have hc := wgWait_counter { n with ctxDone := true } ih
      rcases wgWait_result { n with ctxDone := true } with hw | hw
      · rw [Stop_eq_ok n hs hw]; exact hc
      · rw [Stop_eq_blocked n hs hw]; exact hc
  | wait n _ ih => exact wgWait_counter n ih
  | exit n m i _ hm ih =>
    unfold goroutineExit at hm
    cases hg : n.tasks.get? i with
    | none => rw [hg] at hm; cases hm
    | some s =>
      have hi : i < n.tasks.length := by
        by_contra hcon
        have : n.tasks.get? i = none := List.get?_eq_none.mpr (Nat.le_of_not_lt hcon)
        rw [this] at hg
        cases hg
      rw [hg] at hm
      simp only [] at hm
      split at hm
      · cases hm
        simp [List.length_eraseIdx, hi, ih]
      · cases hm

/-! ## C1 -/

/-- C1, as stated, fails: on a started node whose only service never returns
from `Start`, `Stop()` calls the service's `Stop()` but never returns, so it does
not return success. -/
theorem Stop_blocks_on_hanging_start :
    (registerAll New [svcHang]).Start.result = .ok ∧
    hangRunning.started = true ∧
    stopCalls hangRunning.Stop.trace = [svcHang] ∧
    hangRunning.Stop.result = .blocked ∧
    hangRunning.Stop.result ≠ .ok := by
  decide

/-- C1, amended: on a started node, whatever the services' `Stop()` calls return,
`Stop()` calls `Stop()` on each registered service exactly once, one after the
other, in the reverse of the registration order; all the calls are made even
when some return an error. `Stop()` then either returns success or never
returns, and it returns success when every start task still running returns
once the context is cancelled (the counter being the number of such tasks). -/
theorem Stop_calls_services_in_reverse (n : Node) (h : n.started = true) :
    stopCalls n.Stop.trace = n.services.reverse ∧
    (stopCalls n.Stop.trace).length = n.services.length ∧
    (n.Stop.result = .ok ∨ n.Stop.result = .blocked) ∧
    (n.wg = n.tasks.length → (∀ s ∈ n.tasks, s.Start ≠ .neverReturns) →
      n.Stop.result = .ok) := by
  refine ⟨stopCalls_Stop n h, by simp [stopCalls_Stop n h], ?_, ?_⟩
  · rw [Stop_result n h]
    exact wgWait_result _
  · intro hwf hall
    rw [Stop_result n h]
    exact (wgWait_ok_iff { n with ctxDone := true } hwf).mpr
      (fun s hs => (finishes_true_iff s).mpr (hall s hs))

/-- C1, amended, on the sample node: `B`'s `Stop()` fails, and still the three
calls are made, `C`, `B`, `A`, and `Stop()` returns success. -/
theorem Stop_calls_services_in_reverse_witness :
    sampleRunning.started = true ∧
    stopCalls sampleRunning.Stop.trace = [svcC, svcB, svcA] ∧
    sampleRunning.Stop.result = .ok :=
  ⟨rfl, (Stop_calls_services_in_reverse sampleRunning rfl).1,
    (Stop_calls_services_in_reverse sampleRunning rfl).2.2.2 rfl (by decide)⟩

/-! ## C2 -/

/-- C2: after any sequence of `RegisterService` calls on a fresh node, `Start()`
launches a start task for exactly the registered services, each once, in the
order of registration, and nothing else; the wait group is incremented once per
launch, each time before the launch. -/
theorem Start_launches_registered_in_order (ss : List Service) :
    (registerAll New ss).services = ss ∧
    (registerAll New ss).Start.result = .ok ∧
    launched (registerAll New ss).Start.trace = ss ∧
    addBeforeGo 0 (registerAll New ss).Start.trace = true ∧
    addCount (registerAll New ss).Start.trace = ss.length ∧
    (registerAll New ss).Start.node.wg = ss.length ∧
    (registerAll New ss).Start.node.tasks = ss := by
  have hreg : registerAll New ss = { New with services := ss } := by
    rw [registerAll_eq New ss rfl]; simp [New]
  have hst : ({ New with services := ss } : Node).started = false := rfl
  rw [hreg, Start_eq _ hst]
  refine ⟨rfl, rfl, ?_, ?_, ?_, ?_, ?_⟩
  · simp [launched_append, launched, launched_startEvents]
  · simp [addBeforeGo, addBeforeGo_startEvents]
  · simp [addCount_append, addCount, addCount_startEvents]
  · simp [New]
  · simp [New]

/-! ## C3 -/

/-- C3: on a running node, a further `Start()` returns the failure "node already
started", launches no start task, adds nothing to the wait group, does not
cancel the context, and leaves the node (services, started flag, counter,
context) as it was. -/
theorem Start_on_running_fails (n : Node) (h : n.started = true) :
    n.Start.result = .err "node already started" ∧
    n.Start.node = n ∧
    launched n.Start.trace = [] ∧
    addCount n.Start.trace = 0 ∧
    wgAfter n.wg n.Start.trace = n.wg ∧
    Event.cancel ∉ n.Start.trace := by
  simp [Node.Start, h, launched, addCount, wgAfter]

/-- C3 on the sample node, after its first `Start()`. -/
theorem Start_on_running_fails_witness :
    sampleRunning.started = true ∧
    sampleRunning.Start.result = .err "node already started" ∧
    sampleRunning.Start.node = sampleRunning ∧
    launched sampleRunning.Start.trace = [] :=
  ⟨rfl, (Start_on_running_fails sampleRunning rfl).1,
    (Start_on_running_fails sampleRunning rfl).2.1,
    (Start_on_running_fails sampleRunning rfl).2.2.1⟩

/-! ## C4 -/

/-- C4: on a node that is not running, `Stop()` returns the failure "node not
started", does not call `cancel`, calls `Stop()` on no service and leaves the
node as it was; a node on which `Stop()` succeeded is such a node; and on a fresh
node the context is still live after the failed `Stop()`. -/
theorem Stop_when_not_started_fails (n : Node) (h : n.started = false) :
    n.Stop.result = .err "node not started" ∧
    n.Stop.node = n ∧
    Event.cancel ∉ n.Stop.trace ∧
    stopCalls n.Stop.trace = [] ∧
    (∀ m : Node, m.Stop.result = .ok → m.Stop.node.started = false) ∧
    New.Stop.result = .err "node not started" ∧
    New.Stop.node.ctxDone = false := by
  refine ⟨?_, ?_, ?_, ?_, ?_, by decide, by decide⟩
  · simp [Stop_eq_of_not_started n h]
  · simp [Stop_eq_of_not_started n h]
  · simp [Stop_eq_of_not_started n h]
  · simp [Stop_eq_of_not_started n h, stopCalls]
  · intro m hm
    cases hs : m.started with
    | false => simp [Stop_eq_of_not_started m hs] at hm
    | true =>
      have hw : (wgWait { m with ctxDone := true }).result = .ok := by
        rw [← Stop_result m hs]; exact hm
      rw [Stop_eq_ok m hs hw]

/-- C4 on a node that was started and stopped: a second `Stop()` fails and
changes nothing. -/
theorem Stop_when_not_started_fails_witness :
    sampleRunning.Stop.node.started = false ∧
    sampleRunning.Stop.node.Stop.result = .err "node not started" ∧
    sampleRunning.Stop.node.Stop.node = sampleRunning.Stop.node ∧
    stopCalls sampleRunning.Stop.node.Stop.trace = [] :=
  ⟨(Stop_when_not_started_fails sampleRunning.Stop.node (by decide)).2.2.2.2.1
      sampleRunning (by decide),
    (Stop_when_not_started_fails sampleRunning.Stop.node (by decide)).1,
    (Stop_when_not_started_fails sampleRunning.Stop.node (by decide)).2.1,
    (Stop_when_not_started_fails sampleRunning.Stop.node (by decide)).2.2.2.1⟩

/-! ## C5 -/

/-- C5, as stated, fails: after `Start()` and `Stop()` have both succeeded on the
sample node, a further `Start()` succeeds and launches the three services
again. -/
theorem Start_succeeds_after_Stop :
    sampleNode.Start.result = .ok ∧
    sampleNode.Start.node.Stop.result = .ok ∧
    sampleNode.Start.node.Stop.node.Start.result = .ok ∧
    sampleNode.Start.node.Stop.node.Start.result ≠ .err "node already started" ∧
    launched sampleNode.Start.node.Stop.node.Start.trace = [svcA, svcB, svcC] := by
  decide

/-- C5, amended: after `Start()` and then `Stop()` have both succeeded, the
started flag is false again, the services are those registered and the context
is cancelled; a subsequent `Start()` succeeds, launches a start task for every
registered service, in order, and sets the started flag: the node goes from not
started to started and back. -/
theorem Start_after_Stop_restarts (m : Node) (h1 : m.Start.result = .ok)
    (h2 : m.Start.node.Stop.result = .ok) :
    m.Start.node.started = true ∧
    m.Start.node.Stop.node.started = false ∧
    m.Start.node.Stop.node.services = m.services ∧
    m.Start.node.Stop.node.ctxDone = true ∧
    m.Start.node.Stop.node.Start.result = .ok ∧
    launched m.Start.node.Stop.node.Start.trace = m.services ∧
    m.Start.node.Stop.node.Start.node.started = true := by
  have hm := Start_result_ok m h1
  have hrun : m.Start.node.started = true := by rw [Start_eq m hm]
  have hsv : m.Start.node.services = m.services := by rw [Start_eq m hm]
  obtain ⟨k1, k2, _, k4⟩ := Stop_ok_node m.Start.node hrun h2
  refine ⟨hrun, k4, k1.trans hsv, k2, ?_, ?_, ?_⟩
  · rw [Start_eq _ k4]
  · rw [launched_Start _ k4, k1, hsv]
  · rw [Start_eq _ k4]

/-- C5, amended, on the sample node. -/
theorem Start_after_Stop_restarts_witness :
    sampleNode.Start.result = .ok ∧ sampleNode.Start.node.Stop.result = .ok ∧
    sampleNode.Start.node.Stop.node.started = false ∧
    sampleNode.Start.node.Stop.node.Start.result = .ok ∧
    launched sampleNode.Start.node.Stop.node.Start.trace = sampleNode.services :=
  ⟨by decide, by decide,
    (Start_after_Stop_restarts sampleNode (by decide) (by decide)).2.1,
    (Start_after_Stop_restarts sampleNode (by decide) (by decide)).2.2.2.2.1,
    (Start_after_Stop_restarts sampleNode (by decide) (by decide)).2.2.2.2.2.1⟩

/-! ## C6 -/

/-- C6: `RegisterService(s)` on a started node panics and leaves the node, hence
the services list, as it was; on a node that is not started it does not panic,
appends `s` at the end of the services list, whatever its name, and leaves the
started flag, the counter, the context and the running tasks as they were. -/
theorem RegisterService_panics_or_appends (n : Node) (s : Service) :
    (n.started = true →
      (n.RegisterService s).result =
        .panics ("cannot register service " ++ s.Name ++ " after node has started") ∧
      (n.RegisterService s).node = n) ∧
    (n.started = false →
      (n.RegisterService s).result = .ok ∧
      (n.RegisterService s).node.services = n.services ++ [s] ∧
      (n.RegisterService s).node.started = false ∧
      (n.RegisterService s).node.wg = n.wg ∧
      (n.RegisterService s).node.ctxDone = n.ctxDone ∧
      (n.RegisterService s).node.tasks = n.tasks) := by
  constructor
  · intro h; simp [Node.RegisterService, h]
  · intro h; simp [Node.RegisterService, h]

/-- C6 on the sample node: registering `A` a second time succeeds before
`Start()` and panics after it. -/
theorem RegisterService_panics_or_appends_witness :
    (sampleRunning.started = true ∧
      (sampleRunning.RegisterService svcA).result =
        .panics ("cannot register service " ++ svcA.Name ++ " after node has started") ∧
      (sampleRunning.RegisterService svcA).node = sampleRunning) ∧
    (sampleNode.started = false ∧
      (sampleNode.RegisterService svcA).result = .ok ∧
      (sampleNode.RegisterService svcA).node.services = sampleNode.services ++ [svcA]) :=
  ⟨⟨rfl, (RegisterService_panics_or_appends sampleRunning svcA).1 rfl⟩,
    ⟨rfl, ((RegisterService_panics_or_appends sampleNode svcA).2 rfl).1,
      ((RegisterService_panics_or_appends sampleNode svcA).2 rfl).2.1⟩⟩

/-! ## C7 -/

/-- C7, as stated, fails: once `Start()` and `Stop()` have succeeded on the
sample node, `RegisterService` does not abort, and the services list is no
longer the list that `Start()` saw. -/
theorem RegisterService_succeeds_after_Stop :
    sampleNode.Start.result = .ok ∧
    sampleRunning.Stop.result = .ok ∧
    (sampleRunning.Stop.node.RegisterService svcHang).result = .ok ∧
    (sampleRunning.Stop.node.RegisterService svcHang).node.services
      = [svcA, svcB, svcC, svcHang] ∧
    (sampleRunning.Stop.node.RegisterService svcHang).node.services ≠ sampleNode.services := by
  decide

/-- C7, amended: the services list is frozen while the node is running: after a
successful `Start()` the list is the one `Start()` saw, `RegisterService` aborts
without changing it, and `Stop()` does not change it either. After a successful
`Stop()` the started flag is false again and `RegisterService` succeeds,
appending to the list. -/
theorem services_frozen_while_running (m : Node) (s : Service)
    (h1 : m.Start.result = .ok) :
    m.Start.node.services = m.services ∧
    (m.Start.node.RegisterService s).result =
      .panics ("cannot register service " ++ s.Name ++ " after node has started") ∧
    (m.Start.node.RegisterService s).node.services = m.services ∧
    m.Start.node.Stop.node.services = m.services ∧
    (m.Start.node.Stop.result = .ok →
      (m.Start.node.Stop.node.RegisterService s).result = .ok ∧
      (m.Start.node.Stop.node.RegisterService s).node.services = m.services ++ [s]) := by
  have hm := Start_result_ok m h1
  have hrun : m.Start.node.started = true := by rw [Start_eq m hm]
  have hsv : m.Start.node.services = m.services := by rw [Start_eq m hm]
  refine ⟨hsv, ?_, ?_, ?_, ?_⟩
  · simp [Node.RegisterService, hrun]
  · simp [Node.RegisterService, hrun, hsv]
  · rw [Stop_services, hsv]
  · intro h2
    obtain ⟨k1, _, _, k4⟩ := Stop_ok_node m.Start.node hrun h2
    simp [Node.RegisterService, k4, k1, hsv]

/-- C7, amended, on the sample node. -/
theorem services_frozen_while_running_witness :
    sampleNode.Start.result = .ok ∧
    (sampleNode.Start.node.RegisterService svcHang).result =
      .panics ("cannot register service " ++ svcHang.Name ++ " after node has started") ∧
    (sampleNode.Start.node.RegisterService svcHang).node.services = sampleNode.services ∧
    (sampleNode.Start.node.Stop.node.RegisterService svcHang).result = .ok :=
  ⟨by decide, (services_frozen_while_running sampleNode svcHang (by decide)).2.1,
    (services_frozen_while_running sampleNode svcHang (by decide)).2.2.1,
    ((services_frozen_while_running sampleNode svcHang (by decide)).2.2.2.2 (by decide)).1⟩

/-! ## C8 -/

/-- C8, as stated, fails: in `Stop()` on a node running the single service `A`,
the mutex is taken first and released last, so it is held when `A.Stop()` is
called and during the wait on the wait group. -/
theorem mutex_held_during_service_Stop :
    singleRunning.started = true ∧
    singleRunning.Stop.trace =
      [.lock, .print "Stopping beamlight node...", .cancel,
       .print "Stopping service: A", .stopCall svcA,
       .wgWait, .startReturned svcA, .wgDone,
       .print "All services stopped", .unlock] ∧
    lockHeld false (singleRunning.Stop.trace.take 4) = true ∧
    lockHeld false (singleRunning.Stop.trace.take 5) = true ∧
    freeAt isServiceCall false singleRunning.Stop.trace = false := by
  decide

/-- C8, amended: `Node.Stop` and `Node.Start` take the mutex on entry and release
it only on return: the effects of a call are `lock`, then a stretch that neither
takes nor releases the mutex, then `unlock` if the call returns (a `Stop()` that
never returns never releases it). In `Stop()` on a started node every call of a
service's `Stop()` and the wait on the wait group lie in that stretch, so they
happen while the calling thread holds the mutex; in `Start()` every `wg.Add(1)`
and every launch of a start task lie in that stretch. -/
theorem mutex_held_at_service_calls (n : Node) (h : n.started = true) :
    (∃ mid : List Event, lockFree mid ∧ Event.wgWait ∈ mid ∧
      (∀ s ∈ n.services, Event.stopCall s ∈ mid) ∧
      stopCalls mid = n.services.reverse ∧
      (n.Stop.result = .ok → n.Stop.trace = Event.lock :: (mid ++ [Event.unlock])) ∧
      (n.Stop.result = .blocked → n.Stop.trace = Event.lock :: mid)) ∧
    (n.Stop.result = .ok ∨ n.Stop.result = .blocked) ∧
    heldAt isServiceCall false n.Stop.trace = true ∧
    Event.wgWait ∈ n.Stop.trace ∧
    (∀ s ∈ n.services, Event.stopCall s ∈ n.Stop.trace) ∧
    (∀ m : Node, heldAt isLaunch false m.Start.trace = true) ∧
    (∀ m : Node, ∃ mid : List Event, lockFree mid ∧
      m.Start.trace = Event.lock :: (mid ++ [Event.unlock]) ∧
      (m.started = false →
        launched mid = m.services ∧ addCount mid = m.services.length ∧
        addBeforeGo 0 mid = true)) ∧
    (∀ m : Node, m.started = false → m.Stop.trace = [Event.lock, Event.unlock]) := by
  refine ⟨?_, ?_, heldAt_Stop _ n h, ?_, ?_, fun m => heldAt_Start _ m,
    fun m => Start_body m, ?_⟩
  · obtain ⟨mid, h1, h2, h3, h4, h5⟩ := Stop_body n h
    refine ⟨mid, h1, h2, ?_, h3, h4, h5⟩
    intro s hs
    rw [← mem_stopCalls, h3]
    exact List.mem_reverse.mpr hs
  · rw [Stop_result n h]
    exact wgWait_result _
  · rcases wgWait_result { n with ctxDone := true } with hw | hw
    · rw [Stop_eq_ok n h hw]; simp [wgWait]
    · rw [Stop_eq_blocked n h hw]; simp [wgWait]
  · intro s hs
    rw [← mem_stopCalls, stopCalls_Stop n h]
    exact List.mem_reverse.mpr hs
  · intro m hm
    rw [Stop_eq_of_not_started m hm]

/-- C8, amended, on the node running the single service `A`: the effects of
`Stop()` are `lock`, a stretch without `lock` or `unlock` that holds the call of
`A.Stop()` and the wait, then `unlock`. -/
theorem mutex_held_at_service_calls_witness :
    singleRunning.started = true ∧
    heldAt isServiceCall false singleRunning.Stop.trace = true ∧
    Event.stopCall svcA ∈ singleRunning.Stop.trace ∧
    (∃ mid : List Event, lockFree mid ∧ Event.wgWait ∈ mid ∧ Event.stopCall svcA ∈ mid ∧
      singleRunning.Stop.trace = Event.lock :: (mid ++ [Event.unlock])) ∧
    (∃ mid : List Event, lockFree mid ∧
      (registerAll New [svcA]).Start.trace = Event.lock :: (mid ++ [Event.unlock]) ∧
      launched mid = [svcA]) := by
  refine ⟨rfl, (mutex_held_at_service_calls singleRunning rfl).2.2.1,
    (mutex_held_at_service_calls singleRunning rfl).2.2.2.2.1 svcA (by decide), ?_, ?_⟩
  · obtain ⟨mid, h1, h2, h3, _, h5, _⟩ := (mutex_held_at_service_calls singleRunning rfl).1
    exact ⟨mid, h1, h2, h3 svcA (by decide), h5 (by decide)⟩
  · obtain ⟨mid, h1, h2, h3⟩ :=
      (mutex_held_at_service_calls singleRunning rfl).2.2.2.2.2.2.1 (registerAll New [svcA])
    exact ⟨mid, h1, h2, (h3 (by decide)).1⟩

/-! ## C9 -/

/-- C9: whatever the services' `Start(ctx)` calls do or return, `Start()` on a
fresh node with these services registered returns `nil`, sets the started flag
and launches every registered service, in order: replacing the behaviour of
every service's `Start` by any other changes neither the result nor which
services are launched. -/
theorem Start_ignores_service_Start_results (ss : List Service)
    (f : Service → StartBehaviour) :
    (registerAll New ss).Start.result = .ok ∧
    (registerAll New ss).Start.node.started = true ∧
    launched (registerAll New ss).Start.trace = ss ∧
    (registerAll New (ss.map (withStart f))).Start.result
      = (registerAll New ss).Start.result ∧
    (registerAll New (ss.map (withStart f))).Start.node.started = true ∧
    launched (registerAll New (ss.map (withStart f))).Start.trace = ss.map (withStart f) ∧
    (launched (registerAll New (ss.map (withStart f))).Start.trace).map Service.Name
      = ss.map Service.Name := by
  have key : ∀ l : List Service, (registerAll New l).Start.result = .ok ∧
      (registerAll New l).Start.node.started = true ∧
      launched (registerAll New l).Start.trace = l := by
    intro l
    have hreg : registerAll New l = { New with services := l } := by
      rw [registerAll_eq New l rfl]; simp [New]
    have hst : ({ New with services := l } : Node).started = false := rfl
    rw [hreg]
    refine ⟨?_, ?_, ?_⟩
    · rw [Start_eq _ hst]
    · rw [Start_eq _ hst]
    · rw [launched_Start _ hst]
  obtain ⟨a1, a2, a3⟩ := key ss
  obtain ⟨b1, b2, b3⟩ := key (ss.map (withStart f))
  refine ⟨a1, a2, a3, b1.trans a1.symm, b2, b3, ?_⟩
  rw [b3]
  simp [withStart, Function.comp_def]

/-! ## C10 -/

/-- C10: on a started node whose counter is the number of running start tasks,
a `Stop()` that returns has cancelled the context before any call of a
service's `Stop()`, has waited after all these calls, and has seen every running
start task return, the counter reaching zero; afterwards the counter is zero, no
start task is running, the context is cancelled, and `Wait()` returns at once,
changing nothing. With no service registered, `Start()` then `Stop()` both
succeed. -/
theorem Stop_returns_after_drain (n : Node) (h : n.started = true)
    (hwf : n.wg = n.tasks.length) (hr : n.Stop.result = .ok) :
    Event.cancel ∈ n.Stop.trace ∧
    cancelBeforeStops false n.Stop.trace = true ∧
    stopsBeforeWait false n.Stop.trace = true ∧
    returnedStarts n.Stop.trace = n.tasks ∧
    wgAfter n.wg n.Stop.trace = 0 ∧
    n.Stop.node.wg = 0 ∧
    n.Stop.node.tasks = [] ∧
    n.Stop.node.ctxDone = true ∧
    n.Stop.node.Wait.result = .ok ∧
    n.Stop.node.Wait.node = n.Stop.node ∧
    New.Start.result = .ok ∧
    New.Start.node.Stop.result = .ok := by
  have hw : (wgWait { n with ctxDone := true }).result = .ok := by
    rw [← Stop_result n h]; exact hr
  have hall := (wgWait_ok_iff { n with ctxDone := true } hwf).mp hw
  have hall2 : ∀ s ∈ n.tasks, finishes true s = true := hall
  have hgone : n.tasks.filter (finishes true) = n.tasks :=
    List.filter_eq_self.mpr hall2
  have hrest : n.tasks.filter (fun s => !finishes true s) = [] := by
    simp only [List.filter_eq_nil_iff]
    intro s hs
    simp [hall2 s hs]
  have hd := drain_facts true n.tasks hall2
  have htr : (wgWait { n with ctxDone := true }).trace
      = Event.wgWait :: (n.tasks.map (goroutineEnd true)).flatten := by
    simp [wgWait, hgone]
  have hnode : (wgWait { n with ctxDone := true }).node
      = { n with ctxDone := true, wg := 0, tasks := [] } := by
    simp [wgWait, hgone, hrest, hwf]
  obtain ⟨t1, t2, t3, t4⟩ := Stop_trace_facts (n.services.reverse.map stopEvents).flatten
    (n.tasks.map (goroutineEnd true)).flatten n.tasks n.tasks.length
    (stopsBeforeWait_stopEvents _) (returnedStarts_stopEvents _)
    (fun c => wgAfter_stopEvents c _) hd.2.2.2.1 hd.2.2.1 hd.2.2.2.2
  rw [Stop_eq_ok n h hw, htr, hnode]
  refine ⟨by simp, t2, t1, t3, ?_, rfl, rfl, rfl, ?_, ?_, by decide, by decide⟩
  · rw [t4, hwf]; simp
  · simp [Node.Wait, wgWait]
  · simp [Node.Wait, wgWait]

/-- C10 on the sample node: `Stop()` returns, having seen `A`, `B` and `C` return
from `Start`, and `Wait()` then returns at once. -/
theorem Stop_returns_after_drain_witness :
    sampleRunning.started = true ∧ sampleRunning.wg = sampleRunning.tasks.length ∧
    sampleRunning.Stop.result = .ok ∧
    returnedStarts sampleRunning.Stop.trace = [svcA, svcB, svcC] ∧
    sampleRunning.Stop.node.wg = 0 ∧
    sampleRunning.Stop.node.Wait.result = .ok :=
  ⟨rfl, rfl, by decide,
    (Stop_returns_after_drain sampleRunning rfl rfl (by decide)).2.2.2.1,
    (Stop_returns_after_drain sampleRunning rfl rfl (by decide)).2.2.2.2.2.1,
    (Stop_returns_after_drain sampleRunning rfl rfl (by decide)).2.2.2.2.2.2.2.2.1⟩

end node
